import Mathlib

/-!
Verification development for the express-route-util routing module
(`express_route_util.js`).  The JavaScript source is shallowly embedded:

* JS numbers used as `required` depths become `EDepth` (`Infinity`, `NaN`
  and signed integers — the only numeric values the depth logic produces);
* boxed `new String` objects with a `depth` property become heap-allocated
  `Box` values addressed by `Nat` identifiers, so that the in-place
  mutation and sharing between the route tree and the walker's working
  arrays is observable, exactly as in the source;
* route-tree JS values become `RVal` (strings, arrays of entries, plain
  objects as ordered association lists, numbers and boxes); the fragment
  modelled covers every value shape the routing semantics of the source
  distinguishes;
* the module-global mutable state (`controllerToPathHash`, the Express
  registration calls, the shared `required` object threaded by reference
  through `buildRoutes`) becomes an explicit `St` record threaded through
  the traversal;
* thrown JS exceptions become `Except String`.

All definitions are structural (fuel-based where the source recursion is
on a nested tree), so that every concrete run reduces in the kernel.
-/

namespace RouteUtil

/-! ### Characters and strings

The JS code works on strings; we implement the handful of string
operations it uses over `List Char` by structural recursion.
-/

/-- Lower-case a single ASCII character (JS `toLowerCase` on the ASCII
range, the only range the route keys use). -/
def lowerChar (c : Char) : Char :=
  if 'A' ≤ c ∧ c ≤ 'Z' then Char.ofNat (c.toNat + 32) else c

/-- Lower-case a character list. -/
def lowerL (l : List Char) : List Char := l.map lowerChar

/-- The character list of a string. -/
def chars (s : String) : List Char := s.data

/-- Build a string back from a character list. -/
def ofChars (l : List Char) : String := ⟨l⟩

/-- Case-insensitive prefix test (JS regex `^pat` with the `i` flag,
for a literal pattern `pat` given in lower case). -/
def startsWithCI (l pat : List Char) : Bool :=
  lowerL (l.take pat.length) = pat

/-- Split a character list at commas, keeping empty pieces, exactly like
JS `String.prototype.split(",")`. -/
def splitComma : List Char → List (List Char)
  | [] => [[]]
  | c :: rest =>
    if c = ',' then [] :: splitComma rest
    else match splitComma rest with
      | [] => [[c]]
      | p :: ps => (c :: p) :: ps

/-- Split a character list at dots, keeping empty pieces, like JS
`String.prototype.split(".")` (used by `getController`). -/
def splitDot : List Char → List (List Char)
  | [] => [[]]
  | c :: rest =>
    if c = '.' then [] :: splitDot rest
    else match splitDot rest with
      | [] => [[c]]
      | p :: ps => (c :: p) :: ps

/-! ### The route-key parser

Embedding of lines 152–163 of `buildRoutes`: the single-method branch
(regex `^(get|post|put|del|all)\//i`, stripped by the — typo-carrying —
regex `^(get|post|pul|del|all)/i`), the multi-method branch
(`^([adeglopstu,]+)\//i`, stripped by `^([adeglopstu,]*)/i`) and the
fall-through to the module default method.
-/

/-- The method alternatives of the single-method match regex. -/
def methodAlts : List (List Char) :=
  [chars "get", chars "post", chars "put", chars "del", chars "all"]

/-- The alternatives of the single-method strip regex — note `pul`,
faithfully reproducing the source's typo in the `replace` call. -/
def stripAlts : List (List Char) :=
  [chars "get", chars "post", chars "pul", chars "del", chars "all"]

/-- Membership in the character class `[adeglopstu,]` of the
multi-method regex (case-insensitive). -/
def inMethodClass (c : Char) : Bool :=
  lowerChar c ∈ chars "adeglopstu,"

/-- Parse one route key into the list of HTTP methods and the remaining
path fragment, given the module-wide default method.  Mirrors the two
regex branches of the source; the single-method branch returns a
one-element method list (the source keeps a bare string there, which the
registration loop treats identically). -/
def parseRouteKey (defaultMethod : List Char) (key : List Char) :
    List (List Char) × List Char :=
  match methodAlts.find? (fun m => startsWithCI key (m ++ [(('/') : Char)])) with
  | some m =>
    let frag :=
      match stripAlts.find? (fun r => startsWithCI key r) with
      | some r => key.drop r.length
      | none => key
    ([m], frag)
  | none =>
    let run := key.takeWhile inMethodClass
    if run ≠ [] ∧ (key.drop run.length).take 1 = [(('/') : Char)] then
      (splitComma (lowerL run), key.drop run.length)
    else
      ([defaultMethod], key)

/-! ### Node `path.join`

The source joins URL fragments with Node's POSIX `path.join`, which
concatenates its arguments with `/` and normalizes the result
(collapsing repeated slashes and resolving `.`/`..` segments, keeping a
trailing slash).
-/

/-- Split a character list at `/`, keeping empty pieces. -/
def splitSlash : List Char → List (List Char)
  | [] => [[]]
  | c :: rest =>
    if c = '/' then [] :: splitSlash rest
    else match splitSlash rest with
      | [] => [[c]]
      | p :: ps => (c :: p) :: ps

/-- One step of `..`/segment resolution on the segment stack. -/
def dotStep (isAbs : Bool) (stack : List (List Char)) (seg : List Char) :
    List (List Char) :=
  if seg = chars ".." then
    if stack ≠ [] ∧ stack.getLast? ≠ some (chars "..") then stack.dropLast
    else if isAbs then stack else stack ++ [seg]
  else stack ++ [seg]

/-- Node's POSIX `path.normalize` on a nonempty path. -/
def normalizePath (p : List Char) : List Char :=
  let isAbs := p.take 1 = [(('/') : Char)]
  let trail := p.reverse.take 1 = [(('/') : Char)]
  let segs := (splitSlash p).filter (fun s => s ≠ [] ∧ s ≠ chars ".")
  let stack := segs.foldl (dotStep isAbs) []
  let body := List.intercalate (chars "/") stack
  if body = [] then (if isAbs then chars "/" else chars ".")
  else (if isAbs then chars "/" else []) ++ body ++
    (if trail then chars "/" else [])

/-- Node's POSIX `path.join` on two arguments, as used by the source. -/
def pathJoin (a b : List Char) : List Char :=
  match [a, b].filter (fun s => s ≠ []) with
  | [] => chars "."
  | p :: ps => normalizePath (List.intercalate (chars "/") (p :: ps))

/-! ### JS values of the routing fragment

`EDepth` models the JS numbers that appear as `required` depths
(`Infinity`, `NaN` after decrementing `undefined`, and integers).
A `Box` is a `new String` object carrying an optional `depth` property:
these are mutated in place and shared by reference between the route
tree and the walker's working arrays, so they live in an explicit heap
addressed by `Nat` identifiers.  Array elements (`Entry`) are plain
strings or box references — the only element shapes the routing
semantics of the source distinguishes.  `RVal` covers the JS value
shapes reachable in a route tree: strings, numbers, boxes, arrays and
plain objects (as ordered association lists, matching `for..in`
insertion order).
-/

inductive EDepth where
  | inf
  | nan
  | fin (z : Int)
deriving DecidableEq

/-- A boxed `new String` with its optional `depth` property. -/
structure Box where
  str : List Char
  depth : Option EDepth
deriving DecidableEq

/-- An element of a `required` array: a plain string or a box reference. -/
inductive Entry where
  | plain (s : List Char)
  | boxed (id : Nat)
deriving DecidableEq

/-- The shape of the walker's `required.postfix` slot.  Line 128 of the
source (`required.postfix = routeObj.required.postfix.concat(...)`)
calls `concat` on the *node's declared value*: when that value is an
array the result is an array, but when it is a string (or a
`DepthString` box) `String.prototype.concat` runs and the slot
collapses to one primitive string.  (`required.prefix`, by contrast, is
always an array: line 127's receiver is the walker's own array.) -/
inductive PostVal where
  | arr (es : List Entry)
  | str (s : List Char)
deriving DecidableEq

/-- A JS value of the routing fragment. -/
inductive RVal where
  | str (s : List Char)
  | num (d : EDepth)
  | box (id : Nat)
  | arr (es : List Entry)
  | obj (fields : List (List Char × RVal))

/-- JS truthiness of an `RVal` (`""`, `0` and `NaN` are falsy; objects,
arrays, boxes and other strings/numbers are truthy). -/
def isTruthy : RVal → Bool
  | .str s => s ≠ []
  | .num .nan => false
  | .num (.fin z) => z ≠ 0
  | .num .inf => true
  | _ => true

/-- First-match lookup of a key in an object's field list. -/
def lookupField : List (List Char × RVal) → List Char → Option RVal
  | [], _ => none
  | (k, v) :: rest, key => if k = key then some v else lookupField rest key

/-- JS property assignment on an object: overwrite the first matching
key in place, else append the new key at the end (insertion order). -/
def setField : List (List Char × RVal) → List Char → RVal → List (List Char × RVal)
  | [], key, v => [(key, v)]
  | (k, w) :: rest, key, v =>
    if k = key then (k, v) :: rest else (k, w) :: setField rest key v

/-! ### Module state

`St` packages the module-global mutable state of the source:
the heap of `Box` objects, `controllerToPathHash`, the sequence of
Express registration calls `(method, url, handler-name chain)`, and the
`prefix`/`postfix` arrays of the single `required` object that
`buildRoutes` threads by reference through the entire traversal.
-/

structure St where
  heap : List Box
  hash : List (List Char × List Char)
  regs : List (List Char × List Char × List (List Char))
  reqPre : List Entry
  reqPost : PostVal
deriving DecidableEq

/-- The state at the start of a `registerRoutes` call with a given heap:
empty hash, no registrations, fresh empty `required` arrays. -/
def initSt (heap : List Box) : St := ⟨heap, [], [], [], .arr []⟩

/-- Read a box from the heap (identifiers are always in range in runs
produced by the walker). -/
def heapGet (heap : List Box) (id : Nat) : Box := heap.getD id ⟨[], none⟩

/-- Write a box back to the heap. -/
def heapSet (heap : List Box) (id : Nat) (b : Box) : List Box := heap.set id b

/-- The string value of an array entry (boxes read through the heap);
JS stringification of a `new String` box yields its underlying string,
which is how the source uses entries as hash keys and controller
routes. -/
def entryName (heap : List Box) : Entry → List Char
  | .plain s => s
  | .boxed id => (heapGet heap id).str

/-- JS `String()` of the walker's postfix slot, as evaluated when a
string-valued declaration concatenates it (line 128): an array
stringifies to its elements joined with commas, a string to itself. -/
def stringOfPost (heap : List Box) : PostVal → List Char
  | .arr es => List.intercalate (chars ",") (es.map (entryName heap))
  | .str s => s

/-- The handler names the walker's postfix slot contributes to a leaf
chain at line 172 (`[].concat(..., required.postfix)`): an array is
spread, a collapsed string is appended as one element. -/
def postNames (heap : List Box) : PostVal → List (List Char)
  | .arr es => es.map (entryName heap)
  | .str s => [s]

/-! ### The required-middleware propagator

Embedding of lines 119–144 of `buildRoutes`: the lazily-created
`required` object on both the walker and the route node, the falsy-check
depth default (`if(!routeObj.required.depth) depth = Infinity`), the
concatenation of the node's declared entries onto the shared walker
arrays, and `adjustDepth`, which boxes plain strings, assigns the
node default to falsy depths, splices out negative depths and
decrements the rest — mutating the (possibly shared) boxes in place.
-/

/-- JS falsiness of a `depth` property value (`undefined`, `0`, `NaN`). -/
def depthFalsy : Option EDepth → Bool
  | none => true
  | some .nan => true
  | some (.fin z) => z = 0
  | some .inf => false

/-- The `depth < 0` test of `adjustDepth` (false on `undefined`, `NaN`
and `Infinity`, exactly as the JS comparison). -/
def isNegD : Option EDepth → Bool
  | some (.fin z) => z < 0
  | _ => false

/-- The `depth--` of `adjustDepth` (`undefined` decrements to `NaN`,
`Infinity` and `NaN` are fixed points). -/
def decD : Option EDepth → Option EDepth
  | none => some .nan
  | some .inf => some .inf
  | some .nan => some .nan
  | some (.fin z) => some (.fin (z - 1))

/-- The body of one `adjustDepth` iteration on the box `id`: assign the
node's default depth if the current depth is falsy, splice the entry
out (returning `none`) if the depth is negative, else decrement it. -/
def adjStep (dflt : Option EDepth) (heap : List Box) (id : Nat) :
    List Box × Option Nat :=
  let b := heapGet heap id
  let d1 := if depthFalsy b.depth then dflt else b.depth
  if isNegD d1 then (heapSet heap id ⟨b.str, d1⟩, none)
  else (heapSet heap id ⟨b.str, decD d1⟩, some id)

/-- One `adjustDepth` iteration on an array element: plain strings are
first boxed (`new String`, allocated fresh with no depth), then the
depth logic runs on the box. -/
def adjustOne (dflt : Option EDepth) (heap : List Box) :
    Entry → List Box × Option Nat
  | .plain s => adjStep dflt (heap ++ [⟨s, none⟩]) heap.length
  | .boxed id => adjStep dflt heap id

/-- `adjustDepth` over a whole array, left to right, threading the heap;
the result array holds only boxes, spliced entries are dropped. -/
def adjustDepth (dflt : Option EDepth) (heap : List Box) :
    List Entry → List Box × List Entry
  | [] => (heap, [])
  | e :: rest =>
    match adjustOne dflt heap e with
    | (h1, some id) =>
      let r := adjustDepth dflt h1 rest
      (r.1, .boxed id :: r.2)
    | (h1, none) => adjustDepth dflt h1 rest

/-- The fresh `required` object `{prefix: [], postfix: []}` created when
a node (or the walker) has none. -/
def freshReq : RVal := .obj [(chars "prefix", .arr []), (chars "postfix", .arr [])]

/-- The numeric value of a node's `required.depth`, when it is a number
(the only depth shape the routing fragment uses). -/
def getDepthField : RVal → Option EDepth
  | .obj fs =>
    match lookupField fs (chars "depth") with
    | some (.num d) => some d
    | _ => none
  | _ => none

/-- Line 124 of the source: set `required.depth = Infinity` when the
property is falsy.  Property assignment on a non-object `required`
value is a silent no-op, as in (non-strict) JS. -/
def fixReqDepth : RVal → RVal
  | .obj fs =>
    match lookupField fs (chars "depth") with
    | some v =>
      if isTruthy v then .obj fs
      else .obj (setField fs (chars "depth") (.num .inf))
    | none => .obj (setField fs (chars "depth") (.num .inf))
  | v => v

/-- The array of entries contributed by a `required.prefix` /
`required.postfix` property: absent or falsy properties contribute
nothing, a string contributes itself as one element, an array its
elements, a box itself as one element (`Array.prototype.concat`
semantics on the shapes used by route declarations). -/
def entriesOfVal : RVal → List Entry
  | .str s => [.plain s]
  | .arr es => es
  | .box id => [.boxed id]
  | _ => []

/-- Read the entry list declared under a field (`prefix`/`postfix`) of
the node's `required` value, honouring the source's truthiness guard. -/
def reqFieldEntries (reqv : RVal) (name : List Char) : List Entry :=
  match reqv with
  | .obj fs =>
    match lookupField fs name with
    | some v => if isTruthy v then entriesOfVal v else []
    | none => []
  | _ => []

/-- The node's declared `required.postfix` value, when the node's
`required` is an object (reads of `.postfix` on other shapes yield
`undefined`). -/
def reqPostDecl (reqv : RVal) : Option RVal :=
  match reqv with
  | .obj fs => lookupField fs (chars "postfix")
  | _ => none

/-- Line 128, `required.postfix = routeObj.required.postfix.concat(
required.postfix)`, with the *declared* value as receiver: a falsy or
absent declaration leaves the slot untouched; a declared array
(`Array.prototype.concat`) prepends its elements, spreading an
inherited array and appending an inherited collapsed string as one
element; a declared string or `DepthString` box
(`String.prototype.concat`) collapses the slot to one primitive string,
the declaration followed by `String()` of the inherited slot.  Numeric
and plain-object declarations (on which JS would throw a `TypeError`
from the missing `concat`) are outside the modelled fragment. -/
def concatPost (heap : List Box) (declared : Option RVal) (post : PostVal) :
    PostVal :=
  match declared with
  | some v =>
    if isTruthy v then
      match v with
      | .arr ds =>
        .arr (ds ++ (match post with
          | .arr es => es
          | .str s => [.plain s]))
      | .str s => .str (s ++ stringOfPost heap post)
      | .box id => .str ((heapGet heap id).str ++ stringOfPost heap post)
      | _ => post
    else post
  | none => post

/-- Lines 127–144: append the node's declared prefix entries after the
inherited ones on the walker's prefix array, let the declared postfix
value concatenate the inherited postfix slot (line 128, receiver the
declared value), then run `adjustDepth` over both: the prefix array
always, the postfix slot only while it is an array — on a collapsed
primitive string the per-index writes of `adjustDepth` are silently
discarded and nothing is ever spliced, so the string passes through
unchanged. -/
def propagateRequired (reqv : RVal) (st : St) : St :=
  let pre0 := st.reqPre ++ reqFieldEntries reqv (chars "prefix")
  let post0 := concatPost st.heap (reqPostDecl reqv) st.reqPost
  let dflt := getDepthField reqv
  let r1 := adjustDepth dflt st.heap pre0
  match post0 with
  | .str s => { st with heap := r1.1, reqPre := r1.2, reqPost := .str s }
  | .arr es =>
    let r2 := adjustDepth dflt r1.1 es
    { st with heap := r2.1, reqPre := r1.2, reqPost := .arr r2.2 }

/-! ### The tree compiler

Embedding of lines 146–199 (the `for..in` loop of `buildRoutes`) and of
the whole recursive function; nested recursion into subtrees is paid
for with fuel so that every definition is structural and concrete runs
reduce in the kernel.
-/

/-- JS object property write on a string-valued association list:
overwrite the first matching key, else append. -/
def upsert : List (List Char × List Char) → List Char → List Char →
    List (List Char × List Char)
  | [], k, v => [(k, v)]
  | (a, b) :: rest, k, v =>
    if a = k then (a, v) :: rest else (a, b) :: upsert rest k v

/-- Look a key up in a string-valued association list. -/
def lookupStr : List (List Char × List Char) → List Char → Option (List Char)
  | [], _ => none
  | (a, b) :: rest, k => if a = k then some b else lookupStr rest k

/-- Write `controllerToPathHash[name] = url` and then resolve the name
against the controller namespace, for each name of the chain in order
(lines 175–178); resolution failure aborts like the thrown JS error,
whose message stringifies the name split on dots (an array, joined with
commas).  The controller namespace is modelled as the list of
resolvable dotted names. -/
def hashResolve (ns : List (List Char)) (url : List Char) :
    List (List Char × List Char) → List (List Char) →
    Except String (List (List Char × List Char))
  | hash, [] => .ok hash
  | hash, n :: rest =>
    let h1 := upsert hash n url
    if n ∈ ns then hashResolve ns url h1 rest
    else .error ("Invalid Controller Path Found: " ++
      ofChars (List.intercalate (chars ",") (splitDot n)))

/-- Remove one trailing slash (the source's `replace(/\/$/, '')`). -/
def stripTrailing (l : List Char) : List Char :=
  if l.reverse.take 1 = [(('/') : Char)] then l.dropLast else l

/-- The URL bound by a leaf (lines 165–169): the parsed fragment joined
onto the parent path when there is one, with one trailing slash removed
except on the root `/`. -/
def leafUrl (defaultMethod currPath key : List Char) : List Char :=
  if (if currPath ≠ [] then
      pathJoin currPath (parseRouteKey defaultMethod key).2
      else (parseRouteKey defaultMethod key).2) = chars "/" then chars "/"
  else stripTrailing (if currPath ≠ [] then
    pathJoin currPath (parseRouteKey defaultMethod key).2
    else (parseRouteKey defaultMethod key).2)

/-- Leaf construction (lines 150–190): parse the key, attach the parent
path, normalize the trailing slash, build the handler chain
`required.prefix ++ own ++ required.postfix`, record every chain name
in the hash, resolve it, and register the call once per method. -/
def buildLeaf (ns : List (List Char)) (defaultMethod currPath key : List Char)
    (own : List Entry) (st : St) : Except String St :=
  let names := st.reqPre.map (entryName st.heap) ++
    own.map (entryName st.heap) ++ postNames st.heap st.reqPost
  match hashResolve ns (leafUrl defaultMethod currPath key) st.hash names with
  | .error e => .error e
  | .ok hash1 =>
    .ok { st with
          hash := hash1
          regs := st.regs ++ (parseRouteKey defaultMethod key).1.map
            (fun m => (m, leafUrl defaultMethod currPath key, names)) }

/-- One iteration of the `for..in` loop of `buildRoutes` (lines
146–198) on the field `(k, v)`: skip the `required` key, build a leaf
for string and array values, recurse (via `recur`) into plain-object
values with the extended path, and throw `Invalid Route Definition` on
other shapes.  Returns the (possibly mutated) field value and the
threaded state. -/
def buildRoutesStep
    (recur : List (List Char × RVal) → List Char → St →
      Except String (List (List Char × RVal) × St))
    (ns : List (List Char)) (defaultMethod : List Char)
    (currPath k : List Char) (v : RVal) (st : St) :
    Except String (RVal × St) :=
  if k = chars "required" then .ok (v, st)
  else
    match v with
    | .str s =>
      (buildLeaf ns defaultMethod currPath k [.plain s] st).map (fun st1 => (v, st1))
    | .arr es =>
      (buildLeaf ns defaultMethod currPath k es st).map (fun st1 => (v, st1))
    | .obj fs =>
      (recur fs (pathJoin currPath k) st).map (fun r => (RVal.obj r.1, r.2))
    | .num _ => .error "Invalid Route Definition"
    | .box _ => .error "Invalid Route Definition"

/-- The `for..in` loop of `buildRoutes`, iterating `buildRoutesStep`
over the fields in insertion order; any thrown error aborts the walk. -/
def buildRoutesLoop
    (recur : List (List Char × RVal) → List Char → St →
      Except String (List (List Char × RVal) × St))
    (ns : List (List Char)) (defaultMethod : List Char) :
    List (List Char × RVal) → List Char → St →
    Except String (List (List Char × RVal) × St)
  | [], _, st => .ok ([], st)
  | (k, v) :: rest, currPath, st =>
    match buildRoutesStep recur ns defaultMethod currPath k v st with
    | .error e => .error e
    | .ok p =>
      match buildRoutesLoop recur ns defaultMethod rest currPath p.2 with
      | .error e => .error e
      | .ok r => .ok ((k, p.1) :: r.1, r.2)

/-- Lines 119–124 seen as a value: the node's processed `required`
value — the declared one when truthy, else a fresh
`{prefix: [], postfix: []}` — with its falsy `depth` defaulted to
`Infinity`. -/
def reqValOf (fields : List (List Char × RVal)) : RVal :=
  fixReqDepth (match lookupField fields (chars "required") with
    | some v => if isTruthy v then v else freshReq
    | none => freshReq)

/-- Lines 119–124 seen from the route tree: the node's `required`
property is replaced (at its position) or created (appended) with the
processed `required` value. -/
def withReq (fields : List (List Char × RVal)) : List (List Char × RVal) :=
  match lookupField fields (chars "required") with
  | some _ => setField fields (chars "required") (reqValOf fields)
  | none => fields ++ [(chars "required", reqValOf fields)]

/-- The recursive `buildRoutes` (lines 118–199): materialize the node's
`required` object (lines 119–124, mutating the route tree), propagate
the required entries into the shared walker arrays (lines 127–144),
then run the loop.  The walker `required` object is created by the
caller (`registerRoutes` passes none, so `initSt` starts with empty
arrays), and the same `St` is threaded by reference through the whole
traversal, exactly like the shared JS object.  Nested recursion is paid
for with fuel so every definition stays structural. -/
def buildRoutes : Nat → List (List Char) → List Char →
    List (List Char × RVal) → List Char → St →
    Except String (List (List Char × RVal) × St)
  | 0, _, _, _, _, _ => .error "OUT OF FUEL"
  | fuel + 1, ns, dm, fields, currPath, st =>
    buildRoutesLoop (buildRoutes fuel ns dm) ns dm (withReq fields) currPath
      (propagateRequired (reqValOf fields) st)

/-- The `registerRoutes` entry point (line 204), restricted to its
routing core: controller loading is the external collaborator supplying
the namespace `ns`, and the initial heap carries any pre-built
`DepthString` boxes referenced by the tree. -/
def registerRoutes (fuel : Nat) (ns : List (List Char)) (dm : List Char)
    (heap : List Box) (tree : List (List Char × RVal)) :
    Except String (List (List Char × RVal) × St) :=
  buildRoutes fuel ns dm tree [] (initSt heap)

/-! ### The URL generator

Embedding of `getControllerUrl` (lines 220–232): look the controller up
in the hash (JS falsiness makes a missing *or empty* path fail), run
one global parameter replacement per `(param, value)` pair with the
regex `:param\?*`, strip what the regex `:[^\?]*\?` matches, fail if a
`:` remains, and finally normalize with `path.join("", …)`.  Parameter
names are taken literally, which coincides with the JS regex for the
alphanumeric parameter names route templates use; replacement values
are substituted literally.
-/

/-- Global left-to-right replacement of `:key` followed by a greedy run
of `?` characters (the JS regex `new RegExp(":" + key + "\\?*", "g")`),
fuel-structural. -/
def replaceParamF (key value : List Char) : Nat → List Char → List Char
  | 0, l => l
  | _ + 1, [] => []
  | f + 1, c :: rest =>
    if c = ':' ∧ rest.take key.length = key then
      value ++ replaceParamF key value f ((rest.drop key.length).dropWhile (fun d => d = '?'))
    else c :: replaceParamF key value f rest

/-- Replacement with enough fuel for the whole path. -/
def replaceParam (key value l : List Char) : List Char :=
  replaceParamF key value (l.length + 1) l

/-- The params loop of `getControllerUrl`, in insertion order. -/
def applyParams : List (List Char × List Char) → List Char → List Char
  | [], p => p
  | (k, v) :: rest, p => applyParams rest (replaceParam k v p)

/-- Drop up to and including the first `?` of a list. -/
def dropThroughQ (l : List Char) : List Char :=
  (l.dropWhile (fun d => d ≠ '?')).drop 1

/-- What the strip regex `:[^\?]*\?` (global) removes: from each `:`,
everything up to and including the next `?`, whatever it spans; a `:`
with no later `?` stays.  Fuel-structural. -/
def stripCodeF : Nat → List Char → List Char
  | 0, l => l
  | _ + 1, [] => []
  | f + 1, c :: rest =>
    if c = ':' then
      if '?' ∈ rest then stripCodeF f (dropThroughQ rest)
      else c :: rest
    else c :: stripCodeF f rest

/-- The strip pass with enough fuel for the whole path. -/
def stripCode (l : List Char) : List Char := stripCodeF (l.length + 1) l

/-- `getControllerUrl(controller, params)`. -/
def getControllerUrl (hash : List (List Char × List Char))
    (controller : List Char) (params : List (List Char × List Char)) :
    Except String (List Char) :=
  let thePath := (lookupStr hash controller).getD []
  if thePath = [] then .error "Invalid Controller Requested"
  else
    let p2 := stripCode (applyParams params thePath)
    if ((':') : Char) ∈ p2 then
      .error ("Missing required parameter(s): " ++ ofChars p2)
    else .ok (pathJoin [] p2)

/-! ### `setDefaultMethod` -/

/-- The alternatives of `^(get|post|put|del|all)$/i` — the source
accepts `del`, not `delete`, as its own error message and test suite
confirm. -/
def validDefaultMethods : List (List Char) :=
  [chars "get", chars "post", chars "put", chars "del", chars "all"]

/-- `setDefaultMethod` (lines 235–241): on a full case-insensitive
match store the lower-cased method, otherwise throw and leave the
current default untouched.  Returns the new default and the error, if
any. -/
def setDefaultMethod (current theMethod : List Char) :
    List Char × Option String :=
  if lowerL theMethod ∈ validDefaultMethods then (lowerL theMethod, none)
  else (current,
    some ("Invalid HTTP method name '" ++ ofChars theMethod ++
      "'. Should be: get, post, put, del, or all."))

/-! ### Spec-side definitions

Definitions following the specification's words, used only to compare
the code's behaviour against the specified behaviour.
-/

/-- Modelled from the spec: "strip any remaining optional placeholders
(`:name?` pattern, unresolved ones simply removed along with nothing
else)" — a placeholder name is a run of characters containing no `:`,
`?` or `/` (the spec's `:param` placeholders live inside a path
segment).  Fuel-structural like `stripCodeF`. -/
def specStripF : Nat → List Char → List Char
  | 0, l => l
  | _ + 1, [] => []
  | f + 1, c :: rest =>
    if c = ':' then
      if (rest.drop (rest.takeWhile
          (fun d => d ≠ ':' ∧ d ≠ '?' ∧ d ≠ '/')).length).take 1 =
          [(('?') : Char)] then
        specStripF f (rest.drop ((rest.takeWhile
          (fun d => d ≠ ':' ∧ d ≠ '?' ∧ d ≠ '/')).length + 1))
      else c :: specStripF f rest
    else c :: specStripF f rest

/-- The spec-side strip pass with enough fuel for the whole path. -/
def specStrip (l : List Char) : List Char := specStripF (l.length + 1) l

/-- Well-formedness of a path template with respect to optional
placeholders: after every `:` that has a later `?`, the run up to the
first `?` contains no `:` and no `/`.  On such templates the code's
strip pass removes exactly the spec's optional placeholders. -/
def wfOptF : Nat → List Char → Bool
  | 0, l => l = []
  | _ + 1, [] => true
  | f + 1, c :: rest =>
    if c = ':' then
      if '?' ∈ rest then
        (rest.takeWhile (fun d => d ≠ '?')).all
          (fun d => d ≠ ':' ∧ d ≠ '/') && wfOptF f (dropThroughQ rest)
      else true
    else wfOptF f rest

/-- Well-formedness with enough fuel for the whole path. -/
def wfOpt (l : List Char) : Bool := wfOptF (l.length + 1) l

/-! ### Concrete route trees used to exercise the compiler -/

/-- A Group declaring a `Required.prefix` entry with `depth: 0`, with a
direct Binding child `/a` and a grandchild Binding `/d`→`/b`. -/
def treeDepthZero : List (List Char × RVal) :=
  [(chars "/g", RVal.obj
    [(chars "required", RVal.obj
       [(chars "prefix", RVal.str (chars "p")),
        (chars "depth", RVal.num (EDepth.fin 0))]),
     (chars "/a", RVal.str (chars "h1")),
     (chars "/d", RVal.obj [(chars "/b", RVal.str (chars "h2"))])])]

/-- The controller namespace for `treeDepthZero`. -/
def nsDepthZero : List (List Char) := [chars "p", chars "h1", chars "h2"]

/-- Two sibling Groups, each declaring its own `Required.postfix`
entry. -/
def treeSiblings : List (List Char × RVal) :=
  [(chars "/g1", RVal.obj
     [(chars "required", RVal.obj [(chars "postfix", RVal.str (chars "q1"))]),
      (chars "/a", RVal.str (chars "h1"))]),
   (chars "/g2", RVal.obj
     [(chars "required", RVal.obj [(chars "postfix", RVal.str (chars "q2"))]),
      (chars "/b", RVal.str (chars "h2"))])]

/-- The controller namespace for `treeSiblings`. -/
def nsSiblings : List (List Char) :=
  [chars "q1", chars "q2", chars "h1", chars "h2"]

/-- A Group with a `Required.prefix` entry followed by a sibling Group
that declares nothing. -/
def treePriorSibling : List (List Char × RVal) :=
  [(chars "/g1", RVal.obj
     [(chars "required", RVal.obj [(chars "prefix", RVal.str (chars "p1"))]),
      (chars "/a", RVal.str (chars "h1"))]),
   (chars "/g2", RVal.obj [(chars "/b", RVal.str (chars "h2"))])]

/-- The controller namespace for `treePriorSibling`. -/
def nsPriorSibling : List (List Char) :=
  [chars "p1", chars "h1", chars "h2"]

/-- A Group whose `Required.prefix` is a plain string entry. -/
def treePlainEntry : List (List Char × RVal) :=
  [(chars "/g", RVal.obj
     [(chars "required", RVal.obj [(chars "prefix", RVal.str (chars "p"))]),
      (chars "/a", RVal.str (chars "h"))])]

/-- The controller namespace for `treePlainEntry`. -/
def nsPlainEntry : List (List Char) := [chars "p", chars "h"]

/-- A route tree whose single Binding sits at the empty key, producing
an empty recorded path. -/
def treeEmptyKey : List (List Char × RVal) := [([], RVal.str (chars "h"))]

/-- A heap holding one pre-built `DepthString` box `("p", depth 1)`. -/
def heapBoxed : List Box := [⟨chars "p", some (EDepth.fin 1)⟩]

/-- A Group whose `required` declares the boxed entry of `heapBoxed` and
a default depth of `-1`. -/
def treeBoxed : List (List Char × RVal) :=
  [(chars "/g", RVal.obj
     [(chars "required", RVal.obj
        [(chars "prefix", RVal.arr [Entry.boxed 0]),
         (chars "depth", RVal.num (EDepth.fin (-1)))]),
      (chars "/a", RVal.str (chars "h"))])]

/-- The controller namespace for `treeBoxed`. -/
def nsBoxed : List (List Char) := [chars "p", chars "h"]

/-- The route tree of the spec's reverse-generation example,
`{ "/test/:v": "name" }`. -/
def treeParam : List (List Char × RVal) :=
  [(chars "/test/:v", RVal.str (chars "name"))]

/-! ### The mutation invariant established on route trees

After compilation every Group node of the route tree carries a truthy
`required` property whose `depth` (when the property is an object) is
truthy — the footprint `buildRoutes` leaves on its argument.
-/

/-- The field list holds a truthy `required` property, with a truthy
`depth` when that property is an object. -/
def goodReq (fs : List (List Char × RVal)) : Prop :=
  ∃ v, lookupField fs (chars "required") = some v ∧ isTruthy v = true ∧
    ∀ gs, v = RVal.obj gs →
      ∃ d, lookupField gs (chars "depth") = some d ∧ isTruthy d = true

mutual

/-- Every Group in route position below this value satisfies
`goodReq` (the `required` property itself is metadata, not a route
position). -/
def reqSetV : RVal → Prop
  | .obj fs => goodReq fs ∧ reqSetL fs
  | _ => True

/-- `reqSetV` over the route-position children of a field list. -/
def reqSetL : List (List Char × RVal) → Prop
  | [] => True
  | (k, v) :: rest => (k = chars "required" ∨ reqSetV v) ∧ reqSetL rest

end

/-! ## Claims -/

/-- Claim C1: a `Required.prefix` entry declared with `depth: 0` is
claimed to reach only the Group's direct Binding children.  In the code
the check `if(!routeObj.required.depth)` treats the declared `0` as
falsy and replaces it with `Infinity` (line 124), so the entry reaches
every descendant: compiling `treeDepthZero` puts `p` into the handler
chain of the grandchild Binding `/g/d/b` as well.  The test suite
(`test required controllers`, responses 5 and 6) asserts the claimed
behaviour, so the code contradicts its own tests. -/
theorem buildRoutes_depth_zero_reaches_grandchild :
    (registerRoutes 10 nsDepthZero (chars "get") [] treeDepthZero).map
      (fun p => p.2.regs) =
    .ok [(chars "get", chars "/g/a", [chars "p", chars "h1"]),
         (chars "get", chars "/g/d/b", [chars "p", chars "h2"])] := by
  rfl

/-- Claim C2: `Required` declarations of one sibling Group are claimed
never to leak into the other sibling's chains, with propagation a pure
function.  `buildRoutes` threads one `required` object by reference
through the whole walk; compiling the first sibling of `treeSiblings`
rewrites the shared postfix slot (line 128, `String.prototype.concat`
on the declared string) to the collapsed string `q1`, and at the second
sibling line 128 computes `'q2'.concat('q1') = 'q2q1'` — one merged
bogus handler name.  Registration of `/g2/b` therefore throws
`Invalid Controller Path Found: q2q1` instead of binding the claimed
chain `[h2, q2]`; making the merged name resolvable shows the leaked
chain `[h2, q2q1]` directly.  The test suite (`test required
controllers`, responses 3 and 4) asserts the claimed isolation, so the
code contradicts its own tests. -/
theorem buildRoutes_sibling_required_leaks :
    registerRoutes 10 nsSiblings (chars "get") [] treeSiblings =
      .error "Invalid Controller Path Found: q2q1" ∧
    (registerRoutes 10 (nsSiblings ++ [chars "q2q1"]) (chars "get") []
        treeSiblings).map (fun p => p.2.regs) =
      .ok [(chars "get", chars "/g1/a", [chars "h1", chars "q1"]),
           (chars "get", chars "/g2/b", [chars "h2", chars "q2q1"])] := by
  exact ⟨rfl, rfl⟩

/-- Claim C5: for route keys with a valid method prefix the parser is
claimed to strip the prefix from the fragment.  The single-method strip
regex of the source lists `pul` where `put` was intended (line 159), so
the key `put/x` parses to the method set `{put}` but keeps `put/x` as
its fragment, while `get/x` is stripped as claimed. -/
theorem parseRouteKey_put_prefix_not_stripped :
    parseRouteKey (chars "get") (chars "put/x") =
      ([chars "put"], chars "put/x") ∧
    parseRouteKey (chars "get") (chars "get/x") =
      ([chars "get"], chars "/x") := by
  exact ⟨rfl, rfl⟩

/-- Claim C10: inside every Group the key `"required"` is reserved: the
compile loop skips it wherever it occurs, so walking a field list with
a `required` entry at its head produces exactly the walk of the
remaining fields — same state (no dispatcher registration, no
`controllerToPathHash` entry, no recursion into the value, whatever
shape `v` has), with the entry passed through to the output tree
unchanged. -/
theorem buildRoutesLoop_skips_required (recur) (ns : List (List Char))
    (dm : List Char) (v : RVal) (rest : List (List Char × RVal))
    (currPath : List Char) (st : St) :
    buildRoutesLoop recur ns dm ((chars "required", v) :: rest) currPath st =
    (buildRoutesLoop recur ns dm rest currPath st).map
      (fun r => ((chars "required", v) :: r.1, r.2)) := by
  rw [buildRoutesLoop]
  rw [show buildRoutesStep recur ns dm currPath (chars "required") v st =
    .ok (v, st) from if_pos rfl]
  dsimp only
  cases buildRoutesLoop recur ns dm rest currPath st <;> rfl

/-- Claim C7 counterexample: the claim's valid set is
`{get, post, put, delete, all}`, but the source's regex
`^(get|post|put|del|all)$/i` accepts `del` and rejects `delete` — as the
module's own error message and its `test setDefaultMethod` assert.
`setDefaultMethod("delete")` fails leaving the default unchanged while
`setDefaultMethod("del")` succeeds. -/
theorem setDefaultMethod_delete_rejected :
    setDefaultMethod (chars "get") (chars "delete") =
      (chars "get", some ("Invalid HTTP method name 'delete'. " ++
        "Should be: get, post, put, del, or all.")) ∧
    setDefaultMethod (chars "get") (chars "del") = (chars "del", none) := by
  exact ⟨rfl, rfl⟩

/-- Claim C7 amended: `setDefaultMethod` succeeds exactly on strings
that case-insensitively equal one of `get, post, put, del, all`
(`del`, not `delete`), storing the lower-cased method as the new
default, and fails with the invalid-method error on every other string,
leaving the default unchanged. -/
theorem setDefaultMethod_spec (current s : List Char) :
    (lowerL s ∈ validDefaultMethods →
      setDefaultMethod current s = (lowerL s, none)) ∧
    (lowerL s ∉ validDefaultMethods →
      setDefaultMethod current s =
        (current, some ("Invalid HTTP method name '" ++ ofChars s ++
          "'. Should be: get, post, put, del, or all."))) := by
  constructor <;> intro h <;> simp [setDefaultMethod, h]

/-- Witness for `setDefaultMethod_spec` at the concrete inputs `DeL`
(accepted case-insensitively, stored lower-cased) and `delete`
(rejected, default untouched). -/
theorem setDefaultMethod_spec_witness :
    setDefaultMethod (chars "get") (chars "DeL") = (chars "del", none) ∧
    (setDefaultMethod (chars "get") (chars "delete")).1 = chars "get" := by
  constructor
  · have h := (setDefaultMethod_spec (chars "get") (chars "DeL")).1 (by decide)
    rw [h]; decide
  · have h := (setDefaultMethod_spec (chars "get") (chars "delete")).2 (by decide)
    rw [h]

/-- Claim C6 counterexample: the leading segment `tag` of the key
`tag/x` is not a well-formed method list, yet the multi-method regex
`^([adeglopstu,]+)\//i` accepts any run of those ten letters and commas,
so the parser yields the bogus method set `{tag}` with the prefix
stripped — not the claimed default method with the key unchanged. -/
theorem parseRouteKey_malformed_list_consumed :
    parseRouteKey (chars "get") (chars "tag/x") =
      ([chars "tag"], chars "/x") ∧
    ([chars "tag"], chars "/x") ≠
      (([chars "get"], chars "tag/x") : List (List Char) × List Char) := by
  exact ⟨rfl, by decide⟩

/-- Claim C6 amended: a malformed leading segment falls through to the
default method with the key unchanged only when it matches neither
regex branch: no valid single method followed by `/`, and its run of
characters from the class `[adeglopstu,]` is empty or not followed by
`/`.  (Malformed segments drawn from that character class, such as
`tag`, are instead consumed as a bogus method list.) -/
theorem parseRouteKey_default_fallthrough (dm key : List Char)
    (h1 : ∀ m ∈ methodAlts, startsWithCI key (m ++ [(('/') : Char)]) = false)
    (h2 : key.takeWhile inMethodClass = [] ∨
      (key.drop (key.takeWhile inMethodClass).length).take 1 ≠
        [(('/') : Char)]) :
    parseRouteKey dm key = ([dm], key) := by
  have hf : methodAlts.find?
      (fun m => startsWithCI key (m ++ [(('/') : Char)])) = none := by
    apply List.find?_eq_none.mpr
    intro m hm
    simp [h1 m hm]
  unfold parseRouteKey
  rw [hf]
  rcases h2 with h | h <;> simp [h]

/-- Witness for `parseRouteKey_default_fallthrough` at the concrete key
`foo/x` (the letter `f` is outside the method character class). -/
theorem parseRouteKey_default_fallthrough_witness :
    parseRouteKey (chars "get") (chars "foo/x") =
      ([chars "get"], chars "foo/x") :=
  parseRouteKey_default_fallthrough _ _ (by decide) (by decide)

/-- Claim C8 counterexample: compiling `{"": "h"}` records the entry
`h ↦ ""` in the hash, yet `getControllerUrl("h")` fails with
`Invalid Controller Requested` — the source's `if(!thePath)` treats the
existing empty-string entry as missing, so the `UnknownHandler` failure
is not *exactly* "no PathTable entry". -/
theorem getControllerUrl_empty_path_entry :
    (registerRoutes 10 [chars "h"] (chars "get") [] treeEmptyKey).map
      (fun p => p.2.hash) = .ok [(chars "h", [])] ∧
    getControllerUrl [(chars "h", [])] (chars "h") [] =
      .error "Invalid Controller Requested" := by
  exact ⟨rfl, rfl⟩

/-- Claim C8 amended: URL generation fails with `UnknownHandler`
exactly when the requested name has no PathTable entry *or its entry is
the empty string* (JS falsiness); given a non-empty entry, it fails
with `MissingParameter` (reporting the still-unresolved template)
exactly when a `:` remains after parameter substitution and
optional-placeholder stripping.  The function only reads the table, so
no state is mutated on failure. -/
theorem getControllerUrl_error_spec (hash : List (List Char × List Char))
    (c : List Char) (params : List (List Char × List Char)) :
    (getControllerUrl hash c params = .error "Invalid Controller Requested" ↔
      (lookupStr hash c).getD [] = []) ∧
    (∀ p, lookupStr hash c = some p → p ≠ [] →
      ((∃ rest, getControllerUrl hash c params =
          .error ("Missing required parameter(s): " ++ rest)) ↔
        ((':') : Char) ∈ stripCode (applyParams params p))) := by
  constructor
  · by_cases h : (lookupStr hash c).getD [] = []
    · simp [getControllerUrl, h]
    · simp only [getControllerUrl, if_neg h]
      constructor
      · intro hcontra
        by_cases hc : ((':') : Char) ∈
            stripCode (applyParams params ((lookupStr hash c).getD []))
        · rw [if_pos hc] at hcontra
          have hs : ("Missing required parameter(s): " ++
              ofChars (stripCode (applyParams params
                ((lookupStr hash c).getD [])))) =
              "Invalid Controller Requested" := by
            simpa using hcontra
          have hlen := congrArg String.length hs
          rw [String.length_append] at hlen
          have h31 : ("Missing required parameter(s): " : String).length = 31 := rfl
          have h28 : ("Invalid Controller Requested" : String).length = 28 := rfl
          rw [h31, h28] at hlen
          omega
        · rw [if_neg hc] at hcontra
          exact absurd hcontra (by simp)
      · intro hcontra; exact absurd hcontra h
  · intro p hp hne
    have hgd : (lookupStr hash c).getD [] = p := by rw [hp]; rfl
    simp only [getControllerUrl, hgd, if_neg hne]
    by_cases hc : ((':') : Char) ∈ stripCode (applyParams params p)
    · simp only [if_pos hc]
      exact ⟨fun _ => hc, fun _ => ⟨ofChars (stripCode (applyParams params p)), rfl⟩⟩
    · simp only [if_neg hc]
      constructor
      · rintro ⟨rest, hr⟩; exact absurd hr (by simp)
      · intro hcontra; exact absurd hcontra hc

/-- Witness for `getControllerUrl_error_spec` at the concrete table
`{n ↦ "/t/:x"}` with no parameters: the entry exists and is non-empty,
a `:` survives stripping, and the call fails with `MissingParameter`. -/
theorem getControllerUrl_error_spec_witness :
    ∃ rest, getControllerUrl [(chars "n", chars "/t/:x")] (chars "n") [] =
      .error ("Missing required parameter(s): " ++ rest) :=
  ((getControllerUrl_error_spec [(chars "n", chars "/t/:x")] (chars "n")
    []).2 (chars "/t/:x") rfl (by decide)).mpr (by decide)

/-- Dropping the length of the matched `takeWhile` run is `dropWhile`. -/
theorem drop_takeWhile_length (p : Char → Bool) (l : List Char) :
    l.drop (l.takeWhile p).length = l.dropWhile p := by
  induction l with
  | nil => rfl
  | cons c rest ih =>
    by_cases h : p c = true
    · simp [List.takeWhile_cons, List.dropWhile_cons, h, ih]
    · simp [List.takeWhile_cons, List.dropWhile_cons, h]

/-- After dropping the run of non-`?` characters of a list containing
`?`, the head is `?`. -/
theorem dropWhile_head_q (l : List Char) (h : (('?') : Char) ∈ l) :
    (l.dropWhile (fun d => d ≠ '?')).take 1 = [(('?') : Char)] := by
  induction l with
  | nil => cases h
  | cons c rest ih =>
    by_cases hc : c = '?'
    · subst hc; simp [List.dropWhile_cons]
    · have hr : (('?') : Char) ∈ rest := by
        rcases List.mem_cons.mp h with h1 | h1
        · exact absurd h1.symm hc
        · exact h1
      rw [List.dropWhile_cons, if_pos (by simp [hc])]
      exact ih hr

/-- When the run of non-`?` characters contains neither `:` nor `/`,
the placeholder-name run of the spec-side stripper coincides with it. -/
theorem takeWhile_triple_eq (l : List Char)
    (h : (l.takeWhile (fun d => d ≠ '?')).all
      (fun d => d ≠ ':' ∧ d ≠ '/') = true) :
    l.takeWhile (fun d => d ≠ ':' ∧ d ≠ '?' ∧ d ≠ '/') =
      l.takeWhile (fun d => d ≠ '?') := by
  induction l with
  | nil => rfl
  | cons c rest ih =>
    by_cases hq : c = '?'
    · subst hq; simp [List.takeWhile_cons]
    · rw [List.takeWhile_cons, if_pos (by simp [hq])] at h
      rw [List.all_cons] at h
      have hc := (Bool.and_eq_true _ _).mp h
      have hcc : (c ≠ ':' ∧ c ≠ '/') := by simpa using hc.1
      rw [List.takeWhile_cons, List.takeWhile_cons,
        if_pos (by simp only [decide_eq_true_eq]; exact ⟨hcc.1, hq, hcc.2⟩),
        if_pos (by simp [hq])]
      rw [ih hc.2]

/-- On a path containing no `?` the spec-side stripper is the
identity: there is no optional placeholder to remove. -/
theorem specStripF_no_q (f : Nat) :
    ∀ l : List Char, (('?') : Char) ∉ l → specStripF f l = l := by
  induction f with
  | zero => intro l _; rfl
  | succ f ih =>
    intro l h
    match l with
    | [] => rfl
    | c :: rest =>
      have hrest : (('?') : Char) ∉ rest := fun hm =>
        h (List.mem_cons_of_mem _ hm)
      by_cases hc : c = ':'
      · subst hc
        have hcond : ¬ ((rest.drop (rest.takeWhile
            (fun d => d ≠ ':' ∧ d ≠ '?' ∧ d ≠ '/')).length).take 1 =
            [(('?') : Char)]) := by
          intro hk
          have h1 : (('?') : Char) ∈ (rest.drop (rest.takeWhile
              (fun d => d ≠ ':' ∧ d ≠ '?' ∧ d ≠ '/')).length).take 1 := by
            rw [hk]; simp
          exact hrest (List.mem_of_mem_drop (List.mem_of_mem_take h1))
        rw [specStripF, if_pos rfl, if_neg hcond, ih rest hrest]
      · rw [specStripF, if_neg hc, ih rest hrest]

/-- The code's stripper and the spec's stripper agree on well-formed
templates, fuel-indexed. -/
theorem stripCodeF_eq_specStripF (f : Nat) :
    ∀ l : List Char, wfOptF f l = true → stripCodeF f l = specStripF f l := by
  induction f with
  | zero => intro l _; rfl
  | succ f ih =>
    intro l hw
    match l with
    | [] => rfl
    | c :: rest =>
      by_cases hc : c = ':'
      · subst hc
        by_cases hq : (('?') : Char) ∈ rest
        · rw [wfOptF, if_pos rfl, if_pos hq] at hw
          have hw2 := (Bool.and_eq_true _ _).mp hw
          have hall : (rest.takeWhile (fun d => d ≠ '?')).all
              (fun d => d ≠ ':' ∧ d ≠ '/') = true := hw2.1
          have hwf : wfOptF f (dropThroughQ rest) = true := hw2.2
          have hn := takeWhile_triple_eq rest hall
          have hdrop : rest.drop (rest.takeWhile
              (fun d => d ≠ ':' ∧ d ≠ '?' ∧ d ≠ '/')).length =
              rest.dropWhile (fun d => d ≠ '?') := by
            rw [hn, drop_takeWhile_length]
          have hcond : (rest.drop (rest.takeWhile
              (fun d => d ≠ ':' ∧ d ≠ '?' ∧ d ≠ '/')).length).take 1 =
              [(('?') : Char)] := by
            rw [hdrop]; exact dropWhile_head_q rest hq
          have hdd : ∀ (t : List Char) (k : Nat),
              t.drop (k + 1) = (t.drop k).drop 1 := by
            intro t k
            rw [List.drop_drop, Nat.add_comm]
          have hsuffix : rest.drop ((rest.takeWhile
              (fun d => d ≠ ':' ∧ d ≠ '?' ∧ d ≠ '/')).length + 1) =
              dropThroughQ rest := by
            rw [hdd, hdrop]
            rfl
          rw [stripCodeF, if_pos rfl, if_pos hq]
          rw [specStripF, if_pos rfl, if_pos hcond, hsuffix]
          exact ih (dropThroughQ rest) hwf
        · rw [stripCodeF, if_pos rfl, if_neg hq]
          have hcond : ¬ ((rest.drop (rest.takeWhile
              (fun d => d ≠ ':' ∧ d ≠ '?' ∧ d ≠ '/')).length).take 1 =
              [(('?') : Char)]) := by
            intro hk
            have h1 : (('?') : Char) ∈ (rest.drop (rest.takeWhile
                (fun d => d ≠ ':' ∧ d ≠ '?' ∧ d ≠ '/')).length).take 1 := by
              rw [hk]; simp
            exact hq (List.mem_of_mem_drop (List.mem_of_mem_take h1))
          rw [specStripF, if_pos rfl, if_neg hcond, specStripF_no_q f rest hq]
      · rw [wfOptF, if_neg hc] at hw
        rw [stripCodeF, if_neg hc]
        rw [specStripF, if_neg hc, ih rest hw]

/-- Claim C4 counterexample: for the recorded template `/:a/:b?` with
no parameters, the strip regex `:[^\?]*\?` removes the whole span
`:a/:b?` — crossing the `/` and swallowing the *required* placeholder
`:a` — and generation succeeds with `/`.  Under the claim only the
optional placeholder `:b?` may be removed (`specStrip` yields `/:a/`),
leaving an unresolved `:` — so the claimed behaviour cannot produce a
successful `/`. -/
theorem getControllerUrl_strip_spans_slash :
    getControllerUrl [(chars "n", chars "/:a/:b?")] (chars "n") [] =
      .ok (chars "/") ∧
    specStrip (chars "/:a/:b?") = chars "/:a/" := by
  exact ⟨rfl, rfl⟩

/-- Claim C4 amended: parameter substitution replaces every occurrence
of `:key` followed by a greedy run of `?` with the value (global,
case-sensitive, literal for the alphanumeric keys route templates use);
afterwards the stripping pass removes, for each `:` that has a later
`?`, everything up to and including that `?` — which equals removing
exactly the unresolved `:name?` placeholders whenever each such span
contains no `:` or `/` (`wfOpt`), but can span `/` otherwise.  The
spec's concrete example holds: registering `{"/test/:v": "name"}` and
generating for `name` with `v="12"` yields `/test/12`. -/
theorem getControllerUrl_substitution_spec :
    (∀ l, wfOpt l = true → stripCode l = specStrip l) ∧
    (registerRoutes 10 [chars "name"] (chars "get") [] treeParam).map
      (fun p => p.2.hash) = .ok [(chars "name", chars "/test/:v")] ∧
    getControllerUrl [(chars "name", chars "/test/:v")] (chars "name")
      [(chars "v", chars "12")] = .ok (chars "/test/12") := by
  refine ⟨fun l h => stripCodeF_eq_specStripF (l.length + 1) l h, rfl, rfl⟩

/-- Witness for `getControllerUrl_substitution_spec` at the concrete
well-formed template `/x/:o?/y`. -/
theorem getControllerUrl_substitution_spec_witness :
    wfOpt (chars "/x/:o?/y") = true ∧
    stripCode (chars "/x/:o?/y") = specStrip (chars "/x/:o?/y") :=
  ⟨by decide, getControllerUrl_substitution_spec.1 (chars "/x/:o?/y") (by decide)⟩

/-- `adjustDepth` processes a concatenation sequentially: the adjusted
array is the concatenation of the two adjusted halves, with the heap
threaded left to right. -/
theorem adjustDepth_append (d : Option EDepth) (a : List Entry) :
    ∀ (heap : List Box) (b : List Entry),
      adjustDepth d heap (a ++ b) =
        ((adjustDepth d (adjustDepth d heap a).1 b).1,
         (adjustDepth d heap a).2 ++
           (adjustDepth d (adjustDepth d heap a).1 b).2) := by
  induction a with
  | nil => intro heap b; simp [adjustDepth]
  | cons e rest ih =>
    intro heap b
    rcases hone : adjustOne d heap e with ⟨h1, o⟩
    cases o with
    | none =>
      simp only [List.cons_append, adjustDepth, hone]
      exact ih h1 b
    | some id =>
      simp only [List.cons_append, adjustDepth, hone, List.append_eq]
      rw [ih h1 b]

/-- Claim C3 counterexample: the ancestors of the Binding `/g2/b` of
`treePriorSibling` (the root and `/g2`) declare no `Required` entries,
so the claimed effective prefix list is empty and the claimed chain is
`[h2]`; the compiled chain contains `p1`, contributed by the previously
compiled sibling subtree `/g1`, because the walker's `required` state
is shared across the whole traversal. -/
theorem chain_includes_prior_sibling_entry :
    (registerRoutes 10 nsPriorSibling (chars "get") [] treePriorSibling).map
      (fun p => p.2.regs) =
    .ok [(chars "get", chars "/g1/a", [chars "p1", chars "h1"]),
         (chars "get", chars "/g2/b", [chars "p1", chars "h2"])] ∧
    [chars "p1", chars "h2"] ≠ [chars "h2"] := by
  exact ⟨rfl, by decide⟩

/-- Claim C3 amended: every compiled Binding registers the chain
`prefixNames ++ ownNames ++ postfixNames`, where both parts come from
the walker's threaded `required` state at the Binding (a collapsed
postfix string contributing itself as one name).  At each Group the
prefix state becomes inherited-state then own declared entries (outer
first), each entry depth-adjusted with the heap threaded left to right.
The postfix state follows line 128 with the *declared value* as
receiver: an array declaration prepends its entries before the
inherited state (own first, depth-adjusted), while a string declaration
collapses the whole slot to the single unadjusted string
`declared ++ String(inherited)`.  The inherited state is the one
mutated `required` object of the whole walk, carrying entries from
previously compiled sibling subtrees as well as ancestors. -/
theorem handler_chain_composition :
    (∀ ns dm currPath key own st st',
      buildLeaf ns dm currPath key own st = .ok st' →
      st'.regs = st.regs ++ (parseRouteKey dm key).1.map (fun m =>
        (m, leafUrl dm currPath key,
          st.reqPre.map (entryName st.heap) ++ own.map (entryName st.heap) ++
          postNames st.heap st.reqPost))) ∧
    (∀ reqv st,
      (propagateRequired reqv st).reqPre =
        (adjustDepth (getDepthField reqv) st.heap st.reqPre).2 ++
        (adjustDepth (getDepthField reqv)
          (adjustDepth (getDepthField reqv) st.heap st.reqPre).1
          (reqFieldEntries reqv (chars "prefix"))).2) ∧
    (∀ reqv st ds es, reqPostDecl reqv = some (RVal.arr ds) →
      st.reqPost = PostVal.arr es →
      (propagateRequired reqv st).reqPost = PostVal.arr
        ((adjustDepth (getDepthField reqv)
          (adjustDepth (getDepthField reqv)
            (adjustDepth (getDepthField reqv) st.heap st.reqPre).1
            (reqFieldEntries reqv (chars "prefix"))).1 ds).2 ++
         (adjustDepth (getDepthField reqv)
           (adjustDepth (getDepthField reqv)
             (adjustDepth (getDepthField reqv)
               (adjustDepth (getDepthField reqv) st.heap st.reqPre).1
               (reqFieldEntries reqv (chars "prefix"))).1 ds).1 es).2)) ∧
    (∀ reqv st s, reqPostDecl reqv = some (RVal.str s) → s ≠ [] →
      (propagateRequired reqv st).reqPost =
        PostVal.str (s ++ stringOfPost st.heap st.reqPost)) := by
  refine ⟨?_, ?_, ?_, ?_⟩
  · intro ns dm currPath key own st st' h
    simp only [buildLeaf] at h
    cases hh : hashResolve ns (leafUrl dm currPath key) st.hash
        (st.reqPre.map (entryName st.heap) ++ own.map (entryName st.heap) ++
          postNames st.heap st.reqPost) with
    | error e => rw [hh] at h; cases h
    | ok hash1 =>
      rw [hh] at h
      have hst : st' = { st with
          hash := hash1
          regs := st.regs ++ (parseRouteKey dm key).1.map (fun m =>
            (m, leafUrl dm currPath key,
              st.reqPre.map (entryName st.heap) ++
              own.map (entryName st.heap) ++
              postNames st.heap st.reqPost)) } := by
        cases h; rfl
      subst hst
      rfl
  · intro reqv st
    simp only [propagateRequired]
    cases concatPost st.heap (reqPostDecl reqv) st.reqPost with
    | str s =>
      dsimp only
      rw [adjustDepth_append]
    | arr es =>
      dsimp only
      rw [adjustDepth_append]
  · intro reqv st ds es hd hp
    have hcp : concatPost st.heap (reqPostDecl reqv) st.reqPost =
        PostVal.arr (ds ++ es) := by
      rw [hd, hp]; rfl
    simp only [propagateRequired, hcp]
    rw [adjustDepth_append, adjustDepth_append]
  · intro reqv st s hd hs
    have hcp : concatPost st.heap (reqPostDecl reqv) st.reqPost =
        PostVal.str (s ++ stringOfPost st.heap st.reqPost) := by
      rw [hd]
      simp only [concatPost]
      rw [if_pos (by simp [isTruthy, hs])]
    simp only [propagateRequired, hcp]

/-- Witness for `handler_chain_composition` at concrete inputs: a leaf
compiled from the empty walker state registers `[] ++ [h] ++ []`; an
array postfix declaration `['x']` on the empty state leaves the boxed
entry `['x']`; a string postfix declaration `'q2'` over the collapsed
inherited string `'q1'` merges to `'q2q1'`. -/
theorem handler_chain_composition_witness :
    buildLeaf [chars "h"] (chars "get") [] (chars "/a")
      [Entry.plain (chars "h")] (initSt []) =
      .ok ⟨[], [(chars "h", chars "/a")],
        [(chars "get", chars "/a", [chars "h"])], [], .arr []⟩ ∧
    (⟨[], [(chars "h", chars "/a")],
        [(chars "get", chars "/a", [chars "h"])], [], .arr []⟩ : St).regs =
      (initSt []).regs ++ (parseRouteKey (chars "get") (chars "/a")).1.map
        (fun m => (m, leafUrl (chars "get") [] (chars "/a"),
          (initSt []).reqPre.map (entryName (initSt []).heap) ++
          [Entry.plain (chars "h")].map (entryName (initSt []).heap) ++
          postNames (initSt []).heap (initSt []).reqPost)) ∧
    (propagateRequired (RVal.obj [(chars "postfix",
        RVal.arr [Entry.plain (chars "x")])]) (initSt [])).reqPost =
      PostVal.arr [Entry.boxed 0] ∧
    (propagateRequired (RVal.obj [(chars "postfix", RVal.str (chars "q2"))])
        ⟨[], [], [], [], PostVal.str (chars "q1")⟩).reqPost =
      PostVal.str (chars "q2q1") := by
  refine ⟨rfl, handler_chain_composition.1 [chars "h"] (chars "get") []
    (chars "/a") [Entry.plain (chars "h")] (initSt [])
    ⟨[], [(chars "h", chars "/a")],
      [(chars "get", chars "/a", [chars "h"])], [], .arr []⟩ rfl, ?_, ?_⟩
  · exact (handler_chain_composition.2.2.1
      (RVal.obj [(chars "postfix", RVal.arr [Entry.plain (chars "x")])])
      (initSt []) [Entry.plain (chars "x")] [] rfl rfl).trans rfl
  · exact (handler_chain_composition.2.2.2
      (RVal.obj [(chars "postfix", RVal.str (chars "q2"))])
      ⟨[], [], [], [], PostVal.str (chars "q1")⟩ (chars "q2") rfl
      (by decide)).trans rfl

/-- Overwriting a key makes it the looked-up value. -/
theorem lookupField_setField_self (fs : List (List Char × RVal))
    (k : List Char) (v : RVal) :
    lookupField (setField fs k v) k = some v := by
  induction fs with
  | nil => simp [setField, lookupField]
  | cons p rest ih =>
    rcases p with ⟨a, b⟩
    by_cases h : a = k
    · simp [setField, lookupField, h]
    · simp [setField, lookupField, h, ih]

/-- Appending a fresh key makes it the looked-up value. -/
theorem lookupField_append_self (fs : List (List Char × RVal))
    (k : List Char) (v : RVal) (h : lookupField fs k = none) :
    lookupField (fs ++ [(k, v)]) k = some v := by
  induction fs with
  | nil => simp [lookupField]
  | cons p rest ih =>
    rcases p with ⟨a, b⟩
    by_cases ha : a = k
    · rw [lookupField, if_pos ha] at h; cases h
    · rw [lookupField, if_neg ha] at h
      rw [List.cons_append, lookupField, if_neg ha]
      exact ih h

/-- `fixReqDepth` preserves JS truthiness. -/
theorem isTruthy_fixReqDepth (v : RVal) (h : isTruthy v = true) :
    isTruthy (fixReqDepth v) = true := by
  cases v with
  | obj fs =>
    rw [fixReqDepth]
    cases hl : lookupField fs (chars "depth") with
    | none => rfl
    | some d =>
      dsimp only
      cases ht : isTruthy d with
      | true => rw [if_pos rfl]; rfl
      | false => rw [if_neg Bool.false_ne_true]; rfl
  | str s => exact h
  | num d => exact h
  | box id => exact h
  | arr es => exact h

/-- Whenever the processed `required` value is an object, its `depth`
property is present and truthy (either kept or defaulted to
`Infinity`). -/
theorem fixReqDepth_depth (v : RVal) (gs : List (List Char × RVal))
    (h : fixReqDepth v = RVal.obj gs) :
    ∃ d, lookupField gs (chars "depth") = some d ∧ isTruthy d = true := by
  cases v with
  | obj fs =>
    rw [fixReqDepth] at h
    cases hl : lookupField fs (chars "depth") with
    | none =>
      rw [hl] at h
      injection h with h1
      exact ⟨RVal.num EDepth.inf, h1 ▸ lookupField_setField_self fs _ _, rfl⟩
    | some d =>
      rw [hl] at h
      dsimp only at h
      cases ht : isTruthy d with
      | true =>
        rw [if_pos ht] at h
        injection h with h1
        exact ⟨d, h1 ▸ hl, ht⟩
      | false =>
        rw [if_neg (by rw [ht]; exact Bool.false_ne_true)] at h
        injection h with h1
        exact ⟨RVal.num EDepth.inf, h1 ▸ lookupField_setField_self fs _ _, rfl⟩
  | str s => exact RVal.noConfusion h
  | num d => exact RVal.noConfusion h
  | box id => exact RVal.noConfusion h
  | arr es => exact RVal.noConfusion h

/-- The processed `required` value is truthy. -/
theorem isTruthy_reqValOf (fields : List (List Char × RVal)) :
    isTruthy (reqValOf fields) = true := by
  rw [reqValOf]
  apply isTruthy_fixReqDepth
  cases hl : lookupField fields (chars "required") with
  | none => rfl
  | some v =>
    dsimp only
    cases ht : isTruthy v with
    | true => rw [if_pos rfl]; exact ht
    | false => rw [if_neg Bool.false_ne_true]; rfl

/-- After `withReq`, `required` looks up to the processed value. -/
theorem lookupField_withReq (fields : List (List Char × RVal)) :
    lookupField (withReq fields) (chars "required") = some (reqValOf fields) := by
  rw [withReq]
  cases hl : lookupField fields (chars "required") with
  | none => exact lookupField_append_self fields _ _ hl
  | some v => exact lookupField_setField_self fields _ _

/-- The field list produced by `withReq` satisfies the `required`
footprint. -/
theorem goodReq_withReq (fields : List (List Char × RVal)) :
    goodReq (withReq fields) :=
  ⟨reqValOf fields, lookupField_withReq fields, isTruthy_reqValOf fields,
    fun gs hg => fixReqDepth_depth _ gs hg⟩

/-- The compile loop preserves the `required` lookup of its input and,
when the recursive walker establishes the footprint on subtrees, every
route-position child of its output satisfies the footprint. -/
theorem buildRoutesLoop_reqSet (recur) (ns : List (List Char))
    (dm : List Char)
    (hrec : ∀ fs p s o, recur fs p s = Except.ok o →
      goodReq o.1 ∧ reqSetL o.1) :
    ∀ (l : List (List Char × RVal)) cp st out,
      buildRoutesLoop recur ns dm l cp st = .ok out →
      lookupField out.1 (chars "required") =
        lookupField l (chars "required") ∧
      reqSetL out.1 := by
  intro l
  induction l with
  | nil =>
    intro cp st out h
    rw [buildRoutesLoop] at h
    injection h with h1
    rw [← h1]
    exact ⟨rfl, trivial⟩
  | cons p rest ih =>
    rcases p with ⟨k, v⟩
    intro cp st out h
    rw [buildRoutesLoop] at h
    cases hstep : buildRoutesStep recur ns dm cp k v st with
    | error e => rw [hstep] at h; cases h
    | ok q =>
      rw [hstep] at h
      dsimp only at h
      cases hloop : buildRoutesLoop recur ns dm rest cp q.2 with
      | error e => rw [hloop] at h; cases h
      | ok r =>
        rw [hloop] at h
        dsimp only at h
        injection h with h1
        rw [← h1]
        obtain ⟨ihl, ihs⟩ := ih cp q.2 r hloop
        constructor
        · by_cases hk : k = chars "required"
          · have hq : (Except.ok (v, st) : Except String (RVal × St)) =
                Except.ok q := by
              unfold buildRoutesStep at hstep
              rw [if_pos hk] at hstep
              exact hstep
            injection hq with hq1
            rw [lookupField, lookupField, if_pos hk, if_pos hk, ← hq1]
          · rw [lookupField, lookupField, if_neg hk, if_neg hk]
            exact ihl
        · refine ⟨?_, ihs⟩
          by_cases hk : k = chars "required"
          · exact Or.inl hk
          · right
            unfold buildRoutesStep at hstep
            rw [if_neg hk] at hstep
            cases v with
            | str s =>
              dsimp only at hstep
              cases hbl : buildLeaf ns dm cp k [Entry.plain s] st with
              | error e => rw [hbl] at hstep; cases hstep
              | ok st1 =>
                rw [hbl] at hstep
                simp only [Except.map] at hstep
                injection hstep with h2
                rw [← h2]
                trivial
            | arr es =>
              dsimp only at hstep
              cases hbl : buildLeaf ns dm cp k es st with
              | error e => rw [hbl] at hstep; cases hstep
              | ok st1 =>
                rw [hbl] at hstep
                simp only [Except.map] at hstep
                injection hstep with h2
                rw [← h2]
                trivial
            | num d => dsimp only at hstep; cases hstep
            | box id => dsimp only at hstep; cases hstep
            | obj fs =>
              dsimp only at hstep
              cases hrc : recur fs (pathJoin cp k) st with
              | error e => rw [hrc] at hstep; cases hstep
              | ok o =>
                rw [hrc] at hstep
                simp only [Except.map] at hstep
                injection hstep with h2
                rw [← h2]
                exact hrec fs _ _ o hrc

/-- After a successful `buildRoutes` walk, the output field list has a
truthy `required` whose object `depth` is truthy, and every Group in
route position below it has the same footprint. -/
theorem buildRoutes_reqSet (fuel : Nat) :
    ∀ ns dm fields cp st out,
      buildRoutes fuel ns dm fields cp st = .ok out →
      goodReq out.1 ∧ reqSetL out.1 := by
  induction fuel with
  | zero => intro ns dm fields cp st out h; rw [buildRoutes] at h; cases h
  | succ f ih =>
    intro ns dm fields cp st out h
    rw [buildRoutes] at h
    obtain ⟨hlk, hrs⟩ := buildRoutesLoop_reqSet (buildRoutes f ns dm) ns dm
      (fun fs p s o ho => ih ns dm fs p s o ho) (withReq fields) cp
      (propagateRequired (reqValOf fields) st) out h
    refine ⟨?_, hrs⟩
    obtain ⟨v, hv, ht, hd⟩ := goodReq_withReq fields
    exact ⟨v, by rw [hlk]; exact hv, ht, hd⟩

/-- Claim C9 counterexample: compiling `treePlainEntry` does mutate the
tree — `depth: Infinity` is written into the Group's `required` object
and a fresh `required` object is appended at the root — but the plain
string entry `'p'` of `required.prefix` is *not* replaced by a boxed
object in the node: boxing happens on the walker's working array
(`required.prefix` of the shared state, heap box 0), while the node
keeps `prefix: 'p'`, refuting that part of the claim. -/
theorem registerRoutes_plain_entry_not_boxed_in_tree :
    registerRoutes 10 nsPlainEntry (chars "get") [] treePlainEntry =
      .ok ([(chars "/g", RVal.obj
              [(chars "required", RVal.obj
                 [(chars "prefix", RVal.str (chars "p")),
                  (chars "depth", RVal.num EDepth.inf)]),
               (chars "/a", RVal.str (chars "h"))]),
            (chars "required", RVal.obj
              [(chars "prefix", RVal.arr []),
               (chars "postfix", RVal.arr []),
               (chars "depth", RVal.num EDepth.inf)])],
           ⟨[⟨chars "p", some EDepth.inf⟩],
            [(chars "p", chars "/g/a"), (chars "h", chars "/g/a")],
            [(chars "get", chars "/g/a", [chars "p", chars "h"])],
            [Entry.boxed 0], .arr []⟩) := by
  rfl

/-- Claim C9 amended: registration mutates its route-tree argument —
after every successful walk each Group node (in route position) holds a
truthy `required` property whose object `depth` is truthy (created when
absent, falsy depths replaced by `Infinity`), and the depth fields of
pre-boxed (`DepthString`) entries are decremented in place through the
shared heap, so passing the same tree to a second registration starts
from the mutated state: compiling `treeBoxed` (box depth 1, declared
group depth -1) yields the chain `[p, h]` first and `[h]` on the second
registration of the returned tree and heap.  Plain-string entries,
however, are boxed only in the walker's working arrays, never in the
node. -/
theorem registerRoutes_mutates_tree :
    (∀ fuel ns dm fields currPath st out,
      buildRoutes fuel ns dm fields currPath st = .ok out →
      goodReq out.1 ∧ reqSetL out.1) ∧
    (registerRoutes 10 nsBoxed (chars "get") heapBoxed treeBoxed).map
      (fun p => p.2.regs.map (fun t => t.2.2)) =
      .ok [[chars "p", chars "h"]] ∧
    ((registerRoutes 10 nsBoxed (chars "get") heapBoxed treeBoxed).bind
      (fun p => registerRoutes 10 nsBoxed (chars "get") p.2.heap p.1)).map
      (fun p => p.2.regs.map (fun t => t.2.2)) = .ok [[chars "h"]] :=
  ⟨fun fuel => buildRoutes_reqSet fuel, rfl, rfl⟩

/-- Witness for `registerRoutes_mutates_tree` at the concrete tree
`treePlainEntry`: the walked output satisfies the mutation footprint. -/
theorem registerRoutes_mutates_tree_witness :
    goodReq [(chars "/g", RVal.obj
        [(chars "required", RVal.obj
           [(chars "prefix", RVal.str (chars "p")),
            (chars "depth", RVal.num EDepth.inf)]),
         (chars "/a", RVal.str (chars "h"))]),
      (chars "required", RVal.obj
        [(chars "prefix", RVal.arr []),
         (chars "postfix", RVal.arr []),
         (chars "depth", RVal.num EDepth.inf)])] ∧
    reqSetL [(chars "/g", RVal.obj
        [(chars "required", RVal.obj
           [(chars "prefix", RVal.str (chars "p")),
            (chars "depth", RVal.num EDepth.inf)]),
         (chars "/a", RVal.str (chars "h"))]),
      (chars "required", RVal.obj
        [(chars "prefix", RVal.arr []),
         (chars "postfix", RVal.arr []),
         (chars "depth", RVal.num EDepth.inf)])] :=
  registerRoutes_mutates_tree.1 10 nsPlainEntry (chars "get") treePlainEntry
    [] (initSt [])
    ([(chars "/g", RVal.obj
        [(chars "required", RVal.obj
           [(chars "prefix", RVal.str (chars "p")),
            (chars "depth", RVal.num EDepth.inf)]),
         (chars "/a", RVal.str (chars "h"))]),
      (chars "required", RVal.obj
        [(chars "prefix", RVal.arr []),
         (chars "postfix", RVal.arr []),
         (chars "depth", RVal.num EDepth.inf)])],
     ⟨[⟨chars "p", some EDepth.inf⟩],
      [(chars "p", chars "/g/a"), (chars "h", chars "/g/a")],
      [(chars "get", chars "/g/a", [chars "p", chars "h"])],
      [Entry.boxed 0], .arr []⟩) rfl

end RouteUtil
